import Mathlib

/-!
# Shallow embedding of the arbitrage-bot core (Rust) in Lean 4

Embedding conventions:
* Rust `f64` values (prices, mids, diffs, thresholds) are embedded as `ℚ`
  with exact arithmetic; `f64::round` (ties away from zero) is embedded as
  `rustRound`.  Division by zero in `ℚ` yields `0` (the claims under study
  never exercise the NaN/inf paths).
* Effectful inputs (the wall clock `Utc::now` / `Instant::now` /
  `SystemTime::now`, and the random jitter) are passed as explicit
  arguments.
* `HashMap`s keyed by strings are embedded as functions `String → _`;
  `BTreeMap<String,String>` is embedded as a strictly-sorted association
  list with the ordered insertion `btreeInsert`.
* The tokio bounded mpsc channel is embedded as `Mailbox` with the
  non-blocking `Mailbox.trySend` (success / full / closed).
-/

/-- `f64::round`: round half away from zero (src uses `.round()` in
`Comparator::compare`, `src/src/models/orderbook.rs` line 135). -/
def rustRound (x : ℚ) : ℤ :=
  if 0 ≤ x then ⌊x + 1/2⌋ else ⌈x - 1/2⌉

/-- `(x * 100000.0).round() / 100000.0` — round to 5 decimal places. -/
def round5 (x : ℚ) : ℚ :=
  (rustRound (x * 100000) : ℚ) / 100000

/-- `MarketType` from `src/src/models/orderbook.rs`. -/
inductive MarketType where
  | Spot
  | Futures
deriving DecidableEq, Repr

/-- `MarketSnapshot` from `src/src/models/orderbook.rs` (lines 81-91).
`market_type` is commented out in the source struct and hence omitted. -/
structure MarketSnapshot where
  exchange : String
  symbol : String
  bid : ℚ
  ask : ℚ
  mid : ℚ
  timestamp : ℤ
deriving DecidableEq, Repr

/-- `MarketSnapshot::new` (lines 93-105): `mid = (bid + ask) / 2.0`;
the acquisition timestamp `Utc::now().timestamp()` is passed explicitly. -/
def MarketSnapshot.new (exchange symbol : String) (bid ask : ℚ)
    (_market_type : MarketType) (now : ℤ) : MarketSnapshot :=
  { exchange := exchange, symbol := symbol, bid := bid, ask := ask
    mid := (bid + ask) / 2, timestamp := now }

/-- `Comparator` (lines 108-111). -/
structure Comparator where
  threshold : ℚ
  biggest_diff : ℚ
deriving DecidableEq, Repr

/-- `Comparator::new` (lines 114-119). -/
def Comparator.new (threshold : ℚ) : Comparator :=
  { threshold := threshold, biggest_diff := 0 }

/-- The diff computed for a pair in `Comparator::compare` (line 135):
`((a.mid - b.ask).abs() / a.mid * 100000.0).round() / 100000.0`. -/
def pairDiff (a b : MarketSnapshot) : ℚ :=
  round5 (|a.mid - b.ask| / a.mid)

/-- Inner loop of `Comparator::compare` (lines 129-141): for a fixed `a`,
walk the suffix `rest`; skip same-exchange pairs; emit and raise the
watermark when `diff > biggest_diff && diff >= threshold`. -/
def compareInner (a : MarketSnapshot) :
    List MarketSnapshot → Comparator →
    Comparator × List (MarketSnapshot × MarketSnapshot × ℚ)
  | [], c => (c, [])
  | b :: bs, c =>
    if a.exchange = b.exchange then
      compareInner a bs c
    else
      let diff := pairDiff a b
      if c.biggest_diff < diff ∧ c.threshold ≤ diff then
        let res := compareInner a bs { c with biggest_diff := diff }
        (res.1, (a, b, diff) :: res.2)
      else
        compareInner a bs c

/-- `Comparator::compare` (lines 122-145): enumerate `(i, j)` with `i < j`
in list order, threading `biggest_diff` through both loops. -/
def Comparator.compare :
    Comparator → List MarketSnapshot →
    Comparator × List (MarketSnapshot × MarketSnapshot × ℚ)
  | c, [] => (c, [])
  | c, a :: rest =>
    let r1 := compareInner a rest c
    let r2 := Comparator.compare r1.1 rest
    (r2.1, r1.2 ++ r2.2)

/-- `MarketTracker` (lines 267-271): `data: HashMap<String, Vec<MarketSnapshot>>`
embedded as a total function (absent key ↦ `[]`, matching
`entry(..).or_insert_with(Vec::new)`).  The CSV logger performs no state
relevant to the claims; the logged triples are returned instead. -/
structure MarketTracker where
  data : String → List MarketSnapshot
  comparator : Comparator

/-- `MarketTracker::new` (lines 274-280). -/
def MarketTracker.new (threshold : ℚ) : MarketTracker :=
  { data := fun _ => [], comparator := Comparator.new threshold }

/-- `MarketTracker::update` (lines 282-301): build the snapshot, push it
onto the per-symbol vector, run the comparator on that vector, log (=
return) the results. -/
def MarketTracker.update (t : MarketTracker) (exchange symbol : String)
    (bid ask : ℚ) (market_type : MarketType) (now : ℤ) :
    MarketTracker × List (MarketSnapshot × MarketSnapshot × ℚ) :=
  let snapshot := MarketSnapshot.new exchange symbol bid ask market_type now
  let entry := t.data symbol ++ [snapshot]
  let res := t.comparator.compare entry
  ({ data := fun s => if s = symbol then entry else t.data s
     comparator := res.1 }, res.2)

/-- One inbound update event for a `MarketTracker` trace. -/
structure TrackerEvent where
  exchange : String
  symbol : String
  bid : ℚ
  ask : ℚ
  market_type : MarketType
  now : ℤ

/-- Run a trace of updates through the tracker, collecting every emitted
(and logged) triple in order. -/
def runTracker : MarketTracker → List TrackerEvent →
    MarketTracker × List (MarketSnapshot × MarketSnapshot × ℚ)
  | t, [] => (t, [])
  | t, e :: es =>
    let r := t.update e.exchange e.symbol e.bid e.ask e.market_type e.now
    let rest := runTracker r.1 es
    (rest.1, r.2 ++ rest.2)

/-! ## Alert gate (`src/src/notifications/alert_gate.rs`) -/

/-- `symbol.to_uppercase()` — embedded as per-character uppercasing
(the symbols in this system are ASCII). -/
def toUpperStr (s : String) : String :=
  String.map Char.toUpper s

/-- `pair_key` (`alert_gate.rs` lines 16-24): order-normalised composite
key `"SYMBOL|EXCHANGE_A|EXCHANGE_B"`. -/
def pair_key (symbol exchange_a exchange_b : String) : String :=
  let p := if exchange_a ≤ exchange_b
           then (exchange_a, exchange_b)
           else (exchange_b, exchange_a)
  toUpperStr symbol ++ "|" ++ p.1 ++ "|" ++ p.2

/-- `AppAlert` (`src/src/notifications/telegram.rs`). -/
structure AppAlert where
  symbol : String
  exchange_a : String
  exchange_b : String
  bid_a : ℚ
  ask_a : ℚ
  mid_a : ℚ
  bid_b : ℚ
  ask_b : ℚ
  mid_b : ℚ
  diff_percent : ℚ
deriving DecidableEq, Repr

/-- Result of `tokio::sync::mpsc::Sender::try_send`. -/
inductive TrySendResult where
  | ok
  | full
  | closed
deriving DecidableEq, Repr

/-- A bounded tokio mpsc channel, seen from the sender side. -/
structure Mailbox (α : Type) where
  queue : List α
  capacity : ℕ
  closed : Bool
deriving DecidableEq, Repr

/-- `try_send`: non-blocking; fails with `closed` on a closed channel and
with `full` when the queue is at capacity, leaving the queue unchanged. -/
def Mailbox.trySend {α : Type} (m : Mailbox α) (x : α) :
    Mailbox α × TrySendResult :=
  if m.closed then (m, .closed)
  else if m.capacity ≤ m.queue.length then (m, .full)
  else ({ m with queue := m.queue ++ [x] }, .ok)

/-- `AlertGate` (`alert_gate.rs` lines 26-37).  `last_notified` is the
`HashMap<String, f64>` as a function; `last_send_time : Option ℚ` holds
the instant (seconds) of the last successful send; `cooldown` is in
seconds. -/
structure AlertGate where
  last_notified : String → Option ℚ
  last_send_time : Option ℚ
  min_diff : ℚ
  re_alert_delta : ℚ
  cooldown : ℚ

/-- `AlertGate::new` (lines 40-48). -/
def AlertGate.new (min_diff re_alert_delta cooldown_secs : ℚ) : AlertGate :=
  { last_notified := fun _ => none, last_send_time := none
    min_diff := min_diff, re_alert_delta := re_alert_delta
    cooldown := cooldown_secs }

/-- Guard 2 of `maybe_send` (lines 74-79): a prior notification exists for
the key and the new diff has not jumped by at least `re_alert_delta`. -/
def reAlertBlocked (g : AlertGate) (key : String) (diff : ℚ) : Bool :=
  match g.last_notified key with
  | some prev => decide (diff < prev + g.re_alert_delta)
  | none => false

/-- Guard 3 of `maybe_send` (lines 82-86): `last.elapsed() < cooldown`,
i.e. `now - last < cooldown`. -/
def cooldownBlocked (g : AlertGate) (now : ℚ) : Bool :=
  match g.last_send_time with
  | some last => decide (now - last < g.cooldown)
  | none => false

/-- Result of one `maybe_send` call: the new gate state, the new mailbox
state, and whether the alert was enqueued successfully. -/
structure GateResult where
  gate : AlertGate
  mailbox : Mailbox AppAlert
  accepted : Bool

/-- `AlertGate::maybe_send` (lines 54-115).  The current instant `now`
(seconds) stands for `Instant::now()`.  Gate state is mutated only in the
`Ok` branch of `try_send`; on `Full`/`Closed` the alert is dropped. -/
def AlertGate.maybe_send (g : AlertGate) (mb : Mailbox AppAlert) (now : ℚ)
    (symbol exchange_a exchange_b : String)
    (bid_a ask_a mid_a bid_b ask_b mid_b diff_percent : ℚ) : GateResult :=
  if diff_percent < g.min_diff then ⟨g, mb, false⟩
  else
    let key := pair_key symbol exchange_a exchange_b
    if reAlertBlocked g key diff_percent then ⟨g, mb, false⟩
    else if cooldownBlocked g now then ⟨g, mb, false⟩
    else
      let alert : AppAlert :=
        ⟨symbol, exchange_a, exchange_b, bid_a, ask_a, mid_a,
         bid_b, ask_b, mid_b, diff_percent⟩
      let res := mb.trySend alert
      match res.2 with
      | .ok =>
        ⟨{ g with
             last_notified :=
               fun k => if k = key then some diff_percent
                        else g.last_notified k
             last_send_time := some now }, res.1, true⟩
      | .full => ⟨g, res.1, false⟩
      | .closed => ⟨g, res.1, false⟩

/-- `AlertGate::reset` (lines 118-122): wipe `last_notified` and
`last_send_time`. -/
def AlertGate.reset (g : AlertGate) : AlertGate :=
  { g with last_notified := fun _ => none, last_send_time := none }

/-- Inputs of one `maybe_send` call in a gate trace (the mailbox state at
call time included, since the worker drains it concurrently). -/
structure SendEvent where
  mailbox : Mailbox AppAlert
  now : ℚ
  symbol : String
  exchange_a : String
  exchange_b : String
  bid_a : ℚ
  ask_a : ℚ
  mid_a : ℚ
  bid_b : ℚ
  ask_b : ℚ
  mid_b : ℚ
  diff_percent : ℚ

/-- One event applied to the gate: a `maybe_send` call or a scheduler
`reset`. -/
inductive GateEvent where
  | send (e : SendEvent)
  | reset

/-- Apply one event; for a send event also report the accepted alert's
normalised pair key and diff (or `none` when it was not enqueued). -/
def stepGate (g : AlertGate) : GateEvent → AlertGate × Option (String × ℚ)
  | .send e =>
    let r := g.maybe_send e.mailbox e.now e.symbol e.exchange_a e.exchange_b
      e.bid_a e.ask_a e.mid_a e.bid_b e.ask_b e.mid_b e.diff_percent
    (r.gate,
     if r.accepted
     then some (pair_key e.symbol e.exchange_a e.exchange_b, e.diff_percent)
     else none)
  | .reset => (g.reset, none)

/-- Fold a list of events over the gate. -/
def runGate (g : AlertGate) : List GateEvent → AlertGate
  | [] => g
  | e :: es => runGate (stepGate g e).1 es

/-! ## Session supervisor backoff (`src/src/binance/ws_handler.rs`) -/

/-- `BASE_BACKOFF_MS` (`ws_handler.rs` line 11). -/
def BASE_BACKOFF_MS : ℕ := 1000

/-- `MAX_BACKOFF_MS` (`ws_handler.rs` line 12). -/
def MAX_BACKOFF_MS : ℕ := 60000

/-- One iteration of `WsHandler::connection_loop` (lines 73-134), reduced
to its backoff arithmetic.  Given the backoff entering the iteration,
whether `connect_async` succeeded (the stream then runs until it ends),
and the jitter drawn by `gen_range(0..500)`, return the sleep performed
before the next attempt and the stored backoff after line 131.  On a
successful connect the backoff is reset to base (line 104) before the
post-stream sleep; the sleep is `backoff_ms + jitter` (line 126) and the
stored backoff then doubles, capped at the max (line 131). -/
def loopIter (backoff_ms : ℕ) (connect_ok : Bool) (jitter : ℕ) : ℕ × ℕ :=
  let b := if connect_ok then BASE_BACKOFF_MS else backoff_ms
  (b + jitter, min (b * 2) MAX_BACKOFF_MS)

/-- A run of consecutive failed connection attempts: fold `loopIter` with
`connect_ok = false` over the drawn jitters, collecting the sleeps. -/
def failRun : ℕ → List ℕ → List ℕ × ℕ
  | b, [] => ([], b)
  | b, j :: js =>
    let r := loopIter b false j
    let rest := failRun r.2 js
    (r.1 :: rest.1, rest.2)

/-! ## Binance depth-frame handling (`src/src/ws/binance_client.rs`) -/

namespace exchange_names

/-- `exchange_names::BINANCE` (`src/src/constants.rs`). -/
def BINANCE : String := "binance"

/-- `exchange_names::BYBIT` (`src/src/constants.rs`). -/
def BYBIT : String := "bybit"

end exchange_names

/-- Digits of an unsigned decimal numeral to a natural number
(empty list ↦ 0). -/
def natOfDigits (cs : List Char) : ℕ :=
  cs.foldl (fun n c => 10 * n + (c.toNat - 48)) 0

/-- `str::parse::<f64>` restricted to plain unsigned decimal numerals
(`Digit+ | Digit+ '.' Digit* | Digit* '.' Digit+`), read exactly into `ℚ`
rather than rounded to the nearest `f64`; signs, exponents, `inf` and
`NaN` are not modelled — none occur in the depth frames at issue, and all
claims touch only small literal prices. -/
def parseDecimal (s : String) : Option ℚ :=
  match s.data.splitOn '.' with
  | [i] =>
    if i ≠ [] ∧ i.all Char.isDigit then some (natOfDigits i) else none
  | [i, f] =>
    if (i ≠ [] ∨ f ≠ []) ∧ i.all Char.isDigit ∧ f.all Char.isDigit
    then some ((natOfDigits i : ℚ) + (natOfDigits f : ℚ) / 10 ^ f.length)
    else none
  | _ => none

/-- `bid[0].parse::<f64>().unwrap_or(0.0)` (`binance_client.rs`
lines 103-104). -/
def parsePrice (s : String) : ℚ :=
  (parseDecimal s).getD 0

/-- The tracker-update tail of `run_orderbook_stream_binance`
(`binance_client.rs` lines 102-114): if both `bids.get(0)` and
`asks.get(0)` are present, parse the best prices (parse failure ↦ `0.0`)
and call `MarketTracker::update`; otherwise do nothing.  (`bid[0]` on an
inner vector is embedded as `headD ""`; the source would panic on an
empty inner vector, a path no claim exercises.) -/
def binanceDepthFrameUpdate (t : MarketTracker) (symbol : String)
    (bids asks : List (List String)) (market_type : MarketType) (now : ℤ) :
    MarketTracker × List (MarketSnapshot × MarketSnapshot × ℚ) :=
  match bids.head?, asks.head? with
  | some bid, some ask =>
    t.update exchange_names.BINANCE symbol
      (parsePrice (bid.headD "")) (parsePrice (ask.headD ""))
      market_type now
  | _, _ => (t, [])

/-! ## Signing (`src/src/binance/auth.rs`)

The `hmac`/`sha2` crates used by `BinanceAuth::sign_payload` are embedded
as executable SHA-256 / HMAC-SHA-256 over byte lists (`ℕ` values < 256),
and `hex::encode` as lowercase hex. -/

/-- Reduce modulo `2^32` (all SHA-256 word arithmetic is `u32`). -/
def w32 (x : ℕ) : ℕ := x % 4294967296

/-- Rotate a 32-bit word right by `n`. -/
def rotr32 (n x : ℕ) : ℕ := w32 ((x >>> n) ||| (x <<< (32 - n)))

/-- SHA-256 `Σ₀`. -/
def bsig0 (x : ℕ) : ℕ := rotr32 2 x ^^^ rotr32 13 x ^^^ rotr32 22 x

/-- SHA-256 `Σ₁`. -/
def bsig1 (x : ℕ) : ℕ := rotr32 6 x ^^^ rotr32 11 x ^^^ rotr32 25 x

/-- SHA-256 `σ₀`. -/
def ssig0 (x : ℕ) : ℕ := rotr32 7 x ^^^ rotr32 18 x ^^^ (x >>> 3)

/-- SHA-256 `σ₁`. -/
def ssig1 (x : ℕ) : ℕ := rotr32 17 x ^^^ rotr32 19 x ^^^ (x >>> 10)

/-- SHA-256 `Ch(e,f,g)`; the complement of a 32-bit word is
`4294967295 - w32 e`. -/
def ch32 (e f g : ℕ) : ℕ := (e &&& f) ^^^ ((4294967295 - w32 e) &&& g)

/-- SHA-256 `Maj(a,b,c)`. -/
def maj32 (a b c : ℕ) : ℕ := (a &&& b) ^^^ (a &&& c) ^^^ (b &&& c)

/-- The 64 SHA-256 round constants. -/
def K256 : List ℕ :=
  [0x428A2F98, 0x71374491, 0xB5C0FBCF, 0xE9B5DBA5,
   0x3956C25B, 0x59F111F1, 0x923F82A4, 0xAB1C5ED5,
   0xD807AA98, 0x12835B01, 0x243185BE, 0x550C7DC3,
   0x72BE5D74, 0x80DEB1FE, 0x9BDC06A7, 0xC19BF174,
   0xE49B69C1, 0xEFBE4786, 0x0FC19DC6, 0x240CA1CC,
   0x2DE92C6F, 0x4A7484AA, 0x5CB0A9DC, 0x76F988DA,
   0x983E5152, 0xA831C66D, 0xB00327C8, 0xBF597FC7,
   0xC6E00BF3, 0xD5A79147, 0x06CA6351, 0x14292967,
   0x27B70A85, 0x2E1B2138, 0x4D2C6DFC, 0x53380D13,
   0x650A7354, 0x766A0ABB, 0x81C2C92E, 0x92722C85,
   0xA2BFE8A1, 0xA81A664B, 0xC24B8B70, 0xC76C51A3,
   0xD192E819, 0xD6990624, 0xF40E3585, 0x106AA070,
   0x19A4C116, 0x1E376C08, 0x2748774C, 0x34B0BCB5,
   0x391C0CB3, 0x4ED8AA4A, 0x5B9CCA4F, 0x682E6FF3,
   0x748F82EE, 0x78A5636F, 0x84C87814, 0x8CC70208,
   0x90BEFFFA, 0xA4506CEB, 0xBEF9A3F7, 0xC67178F2]

/-- The eight 32-bit words of SHA-256 working state. -/
structure Hash8 where
  a : ℕ
  b : ℕ
  c : ℕ
  d : ℕ
  e : ℕ
  f : ℕ
  g : ℕ
  h : ℕ
deriving DecidableEq, Repr

/-- SHA-256 initial hash value. -/
def H0 : Hash8 :=
  ⟨0x6A09E667, 0xBB67AE85, 0x3C6EF372, 0xA54FF53A,
   0x510E527F, 0x9B05688C, 0x1F83D9AB, 0x5BE0CD19⟩

/-- Big-endian bytes of a 64-bit length field. -/
def bigEndian8 (n : ℕ) : List ℕ :=
  [(n >>> 56) % 256, (n >>> 48) % 256, (n >>> 40) % 256, (n >>> 32) % 256,
   (n >>> 24) % 256, (n >>> 16) % 256, (n >>> 8) % 256, n % 256]

/-- SHA-256 padding: append `0x80`, zeros, and the 64-bit big-endian bit
length, to a multiple of 64 bytes. -/
def padMessage (msg : List ℕ) : List ℕ :=
  msg ++ 128 :: List.replicate ((64 - (msg.length + 9) % 64) % 64) 0
      ++ bigEndian8 (8 * msg.length)

/-- Split a byte list into 64-byte chunks. -/
def chunks64 (l : List ℕ) : List (List ℕ) :=
  if hne : l = [] then []
  else l.take 64 :: chunks64 (l.drop 64)
termination_by l.length
decreasing_by
  simp only [List.length_drop]
  have hp : 0 < l.length := List.length_pos.mpr hne
  omega

/-- Pack big-endian byte quadruples into 32-bit words. -/
def bytesToWords : List ℕ → List ℕ
  | b0 :: b1 :: b2 :: b3 :: rest =>
    (((b0 * 256 + b1) * 256 + b2) * 256 + b3) :: bytesToWords rest
  | _ => []

/-- Append the next message-schedule word `W[i]`. -/
def scheduleStep (w : List ℕ) : List ℕ :=
  let i := w.length
  w ++ [w32 (ssig1 (w.getD (i - 2) 0) + w.getD (i - 7) 0 +
             ssig0 (w.getD (i - 15) 0) + w.getD (i - 16) 0)]

/-- Extend the 16-word schedule by `n` further words. -/
def buildSchedule (w : List ℕ) : ℕ → List ℕ
  | 0 => w
  | n + 1 => scheduleStep (buildSchedule w n)

/-- One SHA-256 compression round with constant/schedule pair `kw`. -/
def compressRound (s : Hash8) (kw : ℕ × ℕ) : Hash8 :=
  let t1 := w32 (s.h + bsig1 s.e + ch32 s.e s.f s.g + kw.1 + kw.2)
  let t2 := w32 (bsig0 s.a + maj32 s.a s.b s.c)
  ⟨w32 (t1 + t2), s.a, s.b, s.c, w32 (s.d + t1), s.e, s.f, s.g⟩

/-- Compress one 64-byte block into the running hash. -/
def compressBlock (hv : Hash8) (block : List ℕ) : Hash8 :=
  let w := buildSchedule (bytesToWords block) 48
  let s := (K256.zip w).foldl compressRound hv
  ⟨w32 (hv.a + s.a), w32 (hv.b + s.b), w32 (hv.c + s.c), w32 (hv.d + s.d),
   w32 (hv.e + s.e), w32 (hv.f + s.f), w32 (hv.g + s.g), w32 (hv.h + s.h)⟩

/-- Big-endian bytes of one 32-bit word. -/
def wordBytes (w : ℕ) : List ℕ :=
  [(w >>> 24) % 256, (w >>> 16) % 256, (w >>> 8) % 256, w % 256]

/-- SHA-256 of a byte list (the `sha2` crate's `Sha256`). -/
def sha256 (msg : List ℕ) : List ℕ :=
  let hv := (chunks64 (padMessage msg)).foldl compressBlock H0
  wordBytes hv.a ++ wordBytes hv.b ++ wordBytes hv.c ++ wordBytes hv.d ++
  wordBytes hv.e ++ wordBytes hv.f ++ wordBytes hv.g ++ wordBytes hv.h

/-- HMAC-SHA-256 (the `hmac` crate): block size 64; keys longer than one
block are first hashed; `ipad = 0x36`, `opad = 0x5c`. -/
def hmacSha256 (key msg : List ℕ) : List ℕ :=
  let k0 := if 64 < key.length then sha256 key else key
  let kPad := k0 ++ List.replicate (64 - k0.length) 0
  sha256 ((kPad.map fun b => b ^^^ 92) ++
          sha256 ((kPad.map fun b => b ^^^ 54) ++ msg))

/-- UTF-8 encoding of one character. -/
def utf8Char (c : Char) : List ℕ :=
  let n := c.toNat
  if n < 128 then [n]
  else if n < 2048 then [192 + n / 64, 128 + n % 64]
  else if n < 65536 then
    [224 + n / 4096, 128 + (n / 64) % 64, 128 + n % 64]
  else
    [240 + n / 262144, 128 + (n / 4096) % 64, 128 + (n / 64) % 64,
     128 + n % 64]

/-- `str::as_bytes` — the UTF-8 bytes of a string. -/
def utf8Bytes (s : String) : List ℕ :=
  s.data.flatMap utf8Char

/-- One lowercase hex digit (`0..15` ↦ `'0'..'9','a'..'f'`). -/
def hexDigitChar (n : ℕ) : Char :=
  if n < 10 then Char.ofNat (48 + n) else Char.ofNat (87 + n)

/-- The two lowercase hex digits of one byte. -/
def hexByte (b : ℕ) : List Char :=
  [hexDigitChar (b / 16), hexDigitChar (b % 16)]

/-- `hex::encode`: lowercase hex, two digits per byte. -/
def hexEncode (bytes : List ℕ) : String :=
  String.mk (bytes.flatMap hexByte)

/-- The lowercase hex alphabet (the character class of `^[0-9a-f]{64}$`). -/
def hexAlphabet : List Char :=
  "0123456789abcdef".data

/-- `BinanceAuth` (`auth.rs` lines 8-11). -/
structure BinanceAuth where
  api_key : String
  api_secret : String

/-- `BinanceAuth::sign_payload` (`auth.rs` lines 41-47): lowercase-hex
HMAC-SHA-256 of the query bytes under the secret bytes. -/
def BinanceAuth.sign_payload (auth : BinanceAuth) (query : String) : String :=
  hexEncode (hmacSha256 (utf8Bytes auth.api_secret) (utf8Bytes query))

/-- `BTreeMap::insert` on a key-sorted association list: place `(k, v)` at
its ordered position, replacing an existing binding of `k`. -/
def btreeInsert (k v : String) : List (String × String) → List (String × String)
  | [] => [(k, v)]
  | (k', v') :: rest =>
    if k < k' then (k, v) :: (k', v') :: rest
    else if k = k' then (k, v) :: rest
    else (k', v') :: btreeInsert k v rest

/-- `BTreeMap::get` on an association list. -/
def alookup (k : String) : List (String × String) → Option String
  | [] => none
  | (k', v') :: rest => if k = k' then some v' else alookup k rest

/-- The canonical query (`auth.rs` lines 77-81):
`params.iter().map(|(k,v)| format!("{}={}", k, v)).join("&")` — iteration
order of the `BTreeMap` is the sorted list order; no percent-encoding. -/
def canonicalQuery (params : List (String × String)) : String :=
  String.intercalate "&" (params.map fun p => p.1 ++ "=" ++ p.2)

/-- `BinanceAuth::augment_and_sign_params` (`auth.rs` lines 59-90).  The
wall-clock `timestamp` string (`SystemTime::now` in millis) is passed
explicitly; `recvWindow` is `5000.to_string()`. -/
def BinanceAuth.augment_and_sign_params (auth : BinanceAuth)
    (timestamp : String) (params : List (String × String)) :
    List (String × String) :=
  let p1 := btreeInsert "apiKey" auth.api_key params
  let p2 := btreeInsert "timestamp" timestamp p1
  let p3 := btreeInsert "recvWindow" "5000" p2
  let query := canonicalQuery p3
  let signature := auth.sign_payload query
  btreeInsert "signature" signature p3

/-! ## Reference definitions used to characterise the comparator -/

/-- The diff component of an emitted triple. -/
def diffOf (t : MarketSnapshot × MarketSnapshot × ℚ) : ℚ :=
  t.2.2

/-- The distinct-venue pairs `(a, b)` contributed by a fixed `a` and the
suffix after it, in enumeration order. -/
def enumPairsInner (a : MarketSnapshot) :
    List MarketSnapshot → List (MarketSnapshot × MarketSnapshot)
  | [] => []
  | b :: bs =>
    if a.exchange = b.exchange then enumPairsInner a bs
    else (a, b) :: enumPairsInner a bs

/-- All enumerated distinct-venue pairs `(i, j)` with `i < j`, in the
stable enumeration order of `Comparator::compare`. -/
def enumPairs : List MarketSnapshot → List (MarketSnapshot × MarketSnapshot)
  | [] => []
  | a :: rest => enumPairsInner a rest ++ enumPairs rest

/-- Reference emission step (from the amended reading of the spec): a pair
is emitted iff its diff is at least the threshold and strictly above the
running `biggest_diff` watermark, which is then raised to that diff. -/
def emitStep (acc : Comparator × List (MarketSnapshot × MarketSnapshot × ℚ))
    (p : MarketSnapshot × MarketSnapshot) :
    Comparator × List (MarketSnapshot × MarketSnapshot × ℚ) :=
  let d := pairDiff p.1 p.2
  if acc.1.biggest_diff < d ∧ acc.1.threshold ≤ d then
    ({ acc.1 with biggest_diff := d }, acc.2 ++ [(p.1, p.2, d)])
  else acc

/-- Reference comparator: fold `emitStep` over a pair list. -/
def emitFold (c : Comparator)
    (ps : List (MarketSnapshot × MarketSnapshot)) :
    Comparator × List (MarketSnapshot × MarketSnapshot × ℚ) :=
  ps.foldl emitStep (c, [])

/-- Backoff stored after `n` consecutive failed attempts starting from
backoff `b` (the closed form of threading `loopIter` failures). -/
def backoffIter (b : ℕ) : ℕ → ℕ
  | 0 => b
  | n + 1 => min (backoffIter b n * 2) MAX_BACKOFF_MS

/-! ## Lemmas: comparator structure -/

theorem update_data_eq (t : MarketTracker) (ex sym : String) (bid ask : ℚ)
    (mt : MarketType) (now : ℤ) (s : String) :
    (t.update ex sym bid ask mt now).1.data s =
      if s = sym then t.data sym ++ [MarketSnapshot.new ex sym bid ask mt now]
      else t.data s := rfl

theorem update_comparator_eq (t : MarketTracker) (ex sym : String)
    (bid ask : ℚ) (mt : MarketType) (now : ℤ) :
    (t.update ex sym bid ask mt now).1.comparator =
      (t.comparator.compare
        (t.data sym ++ [MarketSnapshot.new ex sym bid ask mt now])).1 := rfl

theorem update_results_eq (t : MarketTracker) (ex sym : String)
    (bid ask : ℚ) (mt : MarketType) (now : ℤ) :
    (t.update ex sym bid ask mt now).2 =
      (t.comparator.compare
        (t.data sym ++ [MarketSnapshot.new ex sym bid ask mt now])).2 := rfl

theorem emitStep_pos (c : Comparator) (p : MarketSnapshot × MarketSnapshot)
    (h : c.biggest_diff < pairDiff p.1 p.2 ∧ c.threshold ≤ pairDiff p.1 p.2)
    (acc : List (MarketSnapshot × MarketSnapshot × ℚ)) :
    emitStep (c, acc) p =
      ({ c with biggest_diff := pairDiff p.1 p.2 },
       acc ++ [(p.1, p.2, pairDiff p.1 p.2)]) := by
  simp [emitStep, h]

theorem emitStep_neg (c : Comparator) (p : MarketSnapshot × MarketSnapshot)
    (h : ¬(c.biggest_diff < pairDiff p.1 p.2 ∧ c.threshold ≤ pairDiff p.1 p.2))
    (acc : List (MarketSnapshot × MarketSnapshot × ℚ)) :
    emitStep (c, acc) p = (c, acc) := by
  simp [emitStep, h]

theorem emitFold_acc (ps : List (MarketSnapshot × MarketSnapshot)) :
    ∀ (c : Comparator) (acc : List (MarketSnapshot × MarketSnapshot × ℚ)),
      ps.foldl emitStep (c, acc) =
        ((ps.foldl emitStep (c, [])).1,
         acc ++ (ps.foldl emitStep (c, [])).2) := by
  induction ps with
  | nil => intro c acc; simp
  | cons p ps ih =>
    intro c acc
    simp only [List.foldl_cons]
    by_cases h : c.biggest_diff < pairDiff p.1 p.2 ∧ c.threshold ≤ pairDiff p.1 p.2
    · rw [emitStep_pos c p h acc, emitStep_pos c p h []]
      simp only [List.nil_append]
      rw [ih _ (acc ++ [(p.1, p.2, pairDiff p.1 p.2)]),
          ih _ [(p.1, p.2, pairDiff p.1 p.2)]]
      simp
    · rw [emitStep_neg c p h acc, emitStep_neg c p h []]
      exact ih c acc

theorem compareInner_eq_emitFold (a : MarketSnapshot) :
    ∀ (bs : List MarketSnapshot) (c : Comparator),
      compareInner a bs c = emitFold c (enumPairsInner a bs) := by
  intro bs
  induction bs with
  | nil => intro c; rfl
  | cons b bs ih =>
    intro c
    by_cases hx : a.exchange = b.exchange
    · simp only [compareInner, enumPairsInner, hx, if_pos]
      exact ih c
    · by_cases hc : c.biggest_diff < pairDiff a b ∧ c.threshold ≤ pairDiff a b
      · have e1 : compareInner a (b :: bs) c =
            ((compareInner a bs { c with biggest_diff := pairDiff a b }).1,
             (a, b, pairDiff a b) ::
               (compareInner a bs { c with biggest_diff := pairDiff a b }).2) := by
          simp only [compareInner, if_neg hx]
          rw [if_pos hc]
        have e2 : emitFold c ((a, b) :: enumPairsInner a bs) =
            List.foldl emitStep (emitStep (c, []) (a, b)) (enumPairsInner a bs) := rfl
        rw [e1]
        simp only [enumPairsInner, if_neg hx]
        rw [e2, emitStep_pos c (a, b) hc []]
        simp only [List.nil_append]
        rw [emitFold_acc (enumPairsInner a bs)
              { c with biggest_diff := pairDiff a b } [(a, b, pairDiff a b)]]
        rw [ih { c with biggest_diff := pairDiff a b }]
        rfl
      · have e1 : compareInner a (b :: bs) c = compareInner a bs c := by
          simp only [compareInner, if_neg hx]
          rw [if_neg hc]
        have e2 : emitFold c ((a, b) :: enumPairsInner a bs) =
            List.foldl emitStep (emitStep (c, []) (a, b)) (enumPairsInner a bs) := rfl
        rw [e1]
        simp only [enumPairsInner, if_neg hx]
        rw [e2, emitStep_neg c (a, b) hc []]
        exact ih c

theorem compare_eq_emitFold :
    ∀ (snaps : List MarketSnapshot) (c : Comparator),
      c.compare snaps = emitFold c (enumPairs snaps) := by
  intro snaps
  induction snaps with
  | nil => intro c; rfl
  | cons a rest ih =>
    intro c
    have e1 : Comparator.compare c (a :: rest) =
        ((Comparator.compare (compareInner a rest c).1 rest).1,
         (compareInner a rest c).2 ++
           (Comparator.compare (compareInner a rest c).1 rest).2) := rfl
    rw [e1, compareInner_eq_emitFold a rest c, ih]
    show _ = emitFold c (enumPairsInner a rest ++ enumPairs rest)
    unfold emitFold
    rw [List.foldl_append]
    conv_rhs =>
      rw [show (List.foldl emitStep (c, []) (enumPairsInner a rest)) =
            ((List.foldl emitStep (c, []) (enumPairsInner a rest)).1,
             (List.foldl emitStep (c, []) (enumPairsInner a rest)).2) from rfl]
      rw [emitFold_acc (enumPairs rest)
            (List.foldl emitStep (c, []) (enumPairsInner a rest)).1
            (List.foldl emitStep (c, []) (enumPairsInner a rest)).2]

theorem emitFold_diff_eq (ps : List (MarketSnapshot × MarketSnapshot)) :
    ∀ (c : Comparator), ∀ t ∈ (emitFold c ps).2, t.2.2 = pairDiff t.1 t.2.1 := by
  induction ps with
  | nil => intro c t ht; simp [emitFold] at ht
  | cons p ps ih =>
    intro c t ht
    unfold emitFold at ht
    rw [List.foldl_cons] at ht
    by_cases h : c.biggest_diff < pairDiff p.1 p.2 ∧ c.threshold ≤ pairDiff p.1 p.2
    · rw [emitStep_pos c p h []] at ht
      simp only [List.nil_append] at ht
      rw [emitFold_acc ps { c with biggest_diff := pairDiff p.1 p.2 }
            [(p.1, p.2, pairDiff p.1 p.2)]] at ht
      rcases List.mem_append.mp ht with hh | hm
      · rcases List.mem_singleton.mp hh with rfl
        rfl
      · exact ih { c with biggest_diff := pairDiff p.1 p.2 } t hm
    · rw [emitStep_neg c p h []] at ht
      exact ih c t ht

theorem emitFold_spec (ps : List (MarketSnapshot × MarketSnapshot)) :
    ∀ (c : Comparator),
      (emitFold c ps).1.threshold = c.threshold ∧
      c.biggest_diff ≤ (emitFold c ps).1.biggest_diff ∧
      (∀ t ∈ (emitFold c ps).2,
        c.threshold ≤ t.2.2 ∧ c.biggest_diff < t.2.2 ∧
        t.2.2 ≤ (emitFold c ps).1.biggest_diff) ∧
      List.Pairwise (fun s t => s.2.2 < t.2.2) (emitFold c ps).2 := by
  induction ps with
  | nil =>
    intro c
    refine ⟨rfl, le_refl _, ?_, ?_⟩
    · intro t ht; simp [emitFold] at ht
    · simp [emitFold]
  | cons p ps ih =>
    intro c
    by_cases h : c.biggest_diff < pairDiff p.1 p.2 ∧ c.threshold ≤ pairDiff p.1 p.2
    · have estep : emitFold c (p :: ps) =
          ((emitFold { c with biggest_diff := pairDiff p.1 p.2 } ps).1,
           (p.1, p.2, pairDiff p.1 p.2) ::
             (emitFold { c with biggest_diff := pairDiff p.1 p.2 } ps).2) := by
        unfold emitFold
        rw [List.foldl_cons, emitStep_pos c p h []]
        simp only [List.nil_append]
        rw [emitFold_acc ps { c with biggest_diff := pairDiff p.1 p.2 }
              [(p.1, p.2, pairDiff p.1 p.2)]]
        rfl
      obtain ⟨iht, ihm, ihe, ihp⟩ := ih { c with biggest_diff := pairDiff p.1 p.2 }
      rw [estep]
      refine ⟨iht, ?_, ?_, ?_⟩
      · exact le_trans (le_of_lt h.1) ihm
      · intro t ht
        rcases List.mem_cons.mp ht with rfl | hm
        · exact ⟨h.2, h.1, ihm⟩
        · obtain ⟨h1, h2, h3⟩ := ihe t hm
          exact ⟨h1, lt_trans h.1 h2, h3⟩
      · refine List.pairwise_cons.mpr ⟨?_, ihp⟩
        intro t hm
        exact (ihe t hm).2.1
    · have estep : emitFold c (p :: ps) = emitFold c ps := by
        unfold emitFold
        rw [List.foldl_cons, emitStep_neg c p h []]
      rw [estep]
      exact ih c

theorem compare_threshold_eq (c : Comparator) (snaps : List MarketSnapshot) :
    (c.compare snaps).1.threshold = c.threshold := by
  rw [compare_eq_emitFold]
  exact (emitFold_spec _ c).1

theorem compare_biggest_mono (c : Comparator) (snaps : List MarketSnapshot) :
    c.biggest_diff ≤ (c.compare snaps).1.biggest_diff := by
  rw [compare_eq_emitFold]
  exact (emitFold_spec _ c).2.1

theorem compare_emitted (c : Comparator) (snaps : List MarketSnapshot) :
    ∀ t ∈ (c.compare snaps).2,
      c.threshold ≤ t.2.2 ∧ c.biggest_diff < t.2.2 ∧
      t.2.2 ≤ (c.compare snaps).1.biggest_diff := by
  rw [compare_eq_emitFold]
  exact (emitFold_spec _ c).2.2.1

theorem compare_pairwise (c : Comparator) (snaps : List MarketSnapshot) :
    List.Pairwise (fun s t => s.2.2 < t.2.2) (c.compare snaps).2 := by
  rw [compare_eq_emitFold]
  exact (emitFold_spec _ c).2.2.2

theorem compare_diff_formula (c : Comparator) (snaps : List MarketSnapshot) :
    ∀ t ∈ (c.compare snaps).2, t.2.2 = pairDiff t.1 t.2.1 := by
  rw [compare_eq_emitFold]
  exact emitFold_diff_eq _ c

theorem runTracker_spec (es : List TrackerEvent) :
    ∀ (t : MarketTracker),
      (runTracker t es).1.comparator.threshold = t.comparator.threshold ∧
      t.comparator.biggest_diff ≤ (runTracker t es).1.comparator.biggest_diff ∧
      (∀ x ∈ (runTracker t es).2,
        t.comparator.threshold ≤ x.2.2 ∧
        t.comparator.biggest_diff < x.2.2 ∧
        x.2.2 ≤ (runTracker t es).1.comparator.biggest_diff) ∧
      List.Pairwise (fun s u => s.2.2 < u.2.2) (runTracker t es).2 := by
  induction es with
  | nil =>
    intro t
    refine ⟨rfl, le_refl _, ?_, ?_⟩
    · intro x hx; simp [runTracker] at hx
    · simp [runTracker]
  | cons e es ih =>
    intro t
    have heq : runTracker t (e :: es) =
        ((runTracker
            (t.update e.exchange e.symbol e.bid e.ask e.market_type e.now).1 es).1,
         (t.update e.exchange e.symbol e.bid e.ask e.market_type e.now).2 ++
           (runTracker
             (t.update e.exchange e.symbol e.bid e.ask e.market_type e.now).1 es).2) :=
      rfl
    obtain ⟨ihT, ihM, ihE, ihP⟩ :=
      ih (t.update e.exchange e.symbol e.bid e.ask e.market_type e.now).1
    have hcu := update_comparator_eq t e.exchange e.symbol e.bid e.ask
      e.market_type e.now
    have hru := update_results_eq t e.exchange e.symbol e.bid e.ask
      e.market_type e.now
    have hthr : (t.update e.exchange e.symbol e.bid e.ask e.market_type
        e.now).1.comparator.threshold = t.comparator.threshold := by
      rw [hcu]; exact compare_threshold_eq _ _
    have hmon : t.comparator.biggest_diff ≤
        (t.update e.exchange e.symbol e.bid e.ask e.market_type
          e.now).1.comparator.biggest_diff := by
      rw [hcu]; exact compare_biggest_mono _ _
    have hemt : ∀ x ∈ (t.update e.exchange e.symbol e.bid e.ask e.market_type
          e.now).2,
        t.comparator.threshold ≤ x.2.2 ∧ t.comparator.biggest_diff < x.2.2 ∧
        x.2.2 ≤ (t.update e.exchange e.symbol e.bid e.ask e.market_type
          e.now).1.comparator.biggest_diff := by
      rw [hcu, hru]; exact compare_emitted _ _
    have hpw : List.Pairwise (fun s u => s.2.2 < u.2.2)
        (t.update e.exchange e.symbol e.bid e.ask e.market_type e.now).2 := by
      rw [hru]; exact compare_pairwise _ _
    rw [heq]
    refine ⟨by rw [ihT, hthr], le_trans hmon ihM, ?_, ?_⟩
    · intro x hx
      rcases List.mem_append.mp hx with h1 | h2
      · obtain ⟨ha, hb, hc⟩ := hemt x h1
        exact ⟨ha, hb, le_trans hc ihM⟩
      · obtain ⟨ha, hb, hc⟩ := ihE x h2
        exact ⟨by rw [← hthr]; exact ha, lt_of_le_of_lt hmon hb, hc⟩
    · refine List.pairwise_append.mpr ⟨hpw, ihP, ?_⟩
      intro s hs u hu
      obtain ⟨_, _, hsb⟩ := hemt s hs
      obtain ⟨_, hub, _⟩ := ihE u hu
      exact lt_of_le_of_lt hsb hub

theorem compare_eval_ex1 :
    (Comparator.mk 0 0).compare
        [⟨"binance", "BTCUSDT", 100, 100, 100, 0⟩,
         ⟨"bybit", "BTCUSDT", 80, 90, 85, 0⟩] =
      (⟨0, 1/10⟩,
       [(⟨"binance", "BTCUSDT", 100, 100, 100, 0⟩,
         ⟨"bybit", "BTCUSDT", 80, 90, 85, 0⟩, 1/10)]) := by
  simp only [Comparator.compare, compareInner]
  simp only [String.reduceEq, reduceIte]
  norm_num [pairDiff, round5, rustRound]

theorem compare_eval_ex1_mem :
    ((⟨"binance", "BTCUSDT", 100, 100, 100, 0⟩ : MarketSnapshot),
     (⟨"bybit", "BTCUSDT", 80, 90, 85, 0⟩ : MarketSnapshot), (1/10 : ℚ)) ∈
      ((Comparator.mk 0 0).compare
        [⟨"binance", "BTCUSDT", 100, 100, 100, 0⟩,
         ⟨"bybit", "BTCUSDT", 80, 90, 85, 0⟩]).2 := by
  rw [compare_eval_ex1]
  simp

theorem compare_eval_ex2 :
    (Comparator.mk (1/20) 0).compare
        [⟨"binance", "S", 100, 100, 100, 0⟩,
         ⟨"bybit", "S", 80, 80, 80, 0⟩,
         ⟨"okx", "S", 90, 90, 90, 0⟩] =
      (⟨1/20, 1/5⟩,
       [(⟨"binance", "S", 100, 100, 100, 0⟩,
         ⟨"bybit", "S", 80, 80, 80, 0⟩, 1/5)]) := by
  simp only [Comparator.compare, compareInner]
  simp only [String.reduceEq, reduceIte]
  norm_num [pairDiff, round5, rustRound]

theorem runTracker_eval_ex :
    (runTracker (MarketTracker.new (1/20))
        [⟨"binance", "BTCUSDT", 100, 100, MarketType.Spot, 0⟩,
         ⟨"bybit", "BTCUSDT", 80, 80, MarketType.Spot, 0⟩]).2 =
      [(⟨"binance", "BTCUSDT", 100, 100, 100, 0⟩,
        ⟨"bybit", "BTCUSDT", 80, 80, 80, 0⟩, 1/5)] := by
  simp only [runTracker, MarketTracker.update, MarketTracker.new,
    MarketSnapshot.new, Comparator.new, Comparator.compare, compareInner]
  simp only [String.reduceEq, reduceIte]
  norm_num [pairDiff, round5, rustRound]

theorem runTracker_eval_ex_mem :
    ((⟨"binance", "BTCUSDT", 100, 100, 100, 0⟩ : MarketSnapshot),
     (⟨"bybit", "BTCUSDT", 80, 80, 80, 0⟩ : MarketSnapshot), (1/5 : ℚ)) ∈
      (runTracker (MarketTracker.new (1/20))
        [⟨"binance", "BTCUSDT", 100, 100, MarketType.Spot, 0⟩,
         ⟨"bybit", "BTCUSDT", 80, 80, MarketType.Spot, 0⟩]).2 := by
  rw [runTracker_eval_ex]
  simp

/-- C1 (counterexample): at the concrete input below, `Comparator::compare`
emits the triple with diff `1/10 = round5(|mid_A − ask_B| / mid_A)`, while
the claimed formula `|mid_A − mid_B| / mid_A * 100` evaluates to `15`: the
code divides by `mid_A` but compares against `ask_B` (not `mid_B`) and
never multiplies by 100. -/
theorem C1_counterexample :
    (Comparator.mk 0 0).compare
        [⟨"binance", "BTCUSDT", 100, 100, 100, 0⟩,
         ⟨"bybit", "BTCUSDT", 80, 90, 85, 0⟩] =
      (⟨0, 1/10⟩,
       [(⟨"binance", "BTCUSDT", 100, 100, 100, 0⟩,
         ⟨"bybit", "BTCUSDT", 80, 90, 85, 0⟩, 1/10)]) ∧
    |(100 : ℚ) - 85| / 100 * 100 = 15 ∧ (1/10 : ℚ) ≠ 15 :=
  ⟨compare_eval_ex1, by norm_num, by norm_num⟩

/-- C1 (amended): every triple emitted by `Comparator::compare` carries
`diff = round5(|mid_A − ask_B| / mid_A)` — the absolute difference between
the first snapshot's mid and the *ask* of the second, divided by `mid_A`,
rounded to 5 decimal places and *not* multiplied by 100 — where
`mid = (bid + ask) / 2` as claimed. -/
theorem C1_emitted_diff_formula :
    (∀ (c : Comparator) (snaps : List MarketSnapshot),
       ∀ t ∈ (c.compare snaps).2, t.2.2 = pairDiff t.1 t.2.1) ∧
    (∀ (ex sym : String) (bid ask : ℚ) (mt : MarketType) (now : ℤ),
       (MarketSnapshot.new ex sym bid ask mt now).mid = (bid + ask) / 2) ∧
    (∀ a b : MarketSnapshot,
       pairDiff a b = (rustRound (|a.mid - b.ask| / a.mid * 100000) : ℚ) / 100000) :=
  ⟨fun c snaps => compare_diff_formula c snaps,
   fun _ _ _ _ _ _ => rfl, fun _ _ => rfl⟩

/-- C1 witness: the formula theorem applied to the concrete emitted triple. -/
theorem C1_emitted_diff_formula_witness :
    ((⟨"binance", "BTCUSDT", 100, 100, 100, 0⟩ : MarketSnapshot),
     (⟨"bybit", "BTCUSDT", 80, 90, 85, 0⟩ : MarketSnapshot), (1/10 : ℚ)) ∈
      ((Comparator.mk 0 0).compare
        [⟨"binance", "BTCUSDT", 100, 100, 100, 0⟩,
         ⟨"bybit", "BTCUSDT", 80, 90, 85, 0⟩]).2 ∧
    (1/10 : ℚ) =
      pairDiff ⟨"binance", "BTCUSDT", 100, 100, 100, 0⟩
        ⟨"bybit", "BTCUSDT", 80, 90, 85, 0⟩ :=
  ⟨compare_eval_ex1_mem,
   C1_emitted_diff_formula.1 (Comparator.mk 0 0)
     [⟨"binance", "BTCUSDT", 100, 100, 100, 0⟩,
      ⟨"bybit", "BTCUSDT", 80, 90, 85, 0⟩] _ compare_eval_ex1_mem⟩

/-- C2 (counterexample): with threshold `1/20`, snapshots from venues
binance/bybit/okx with mids 100/80/90 yield a single emission `(A, B, 1/5)`
although the pair `(A, C)` also qualifies (`pairDiff A C = 1/10 ≥ 1/20`):
the `biggest_diff` watermark (raised to `1/5`) suppressed it, so the
watermark is not advisory telemetry and does suppress emissions. -/
theorem C2_counterexample :
    (Comparator.mk (1/20) 0).compare
        [⟨"binance", "S", 100, 100, 100, 0⟩,
         ⟨"bybit", "S", 80, 80, 80, 0⟩,
         ⟨"okx", "S", 90, 90, 90, 0⟩] =
      (⟨1/20, 1/5⟩,
       [(⟨"binance", "S", 100, 100, 100, 0⟩,
         ⟨"bybit", "S", 80, 80, 80, 0⟩, 1/5)]) ∧
    pairDiff ⟨"binance", "S", 100, 100, 100, 0⟩ ⟨"okx", "S", 90, 90, 90, 0⟩
      = 1/10 ∧
    (1/20 : ℚ) ≤ 1/10 ∧
    (⟨"binance", "S", 100, 100, 100, 0⟩,
     ⟨"okx", "S", 90, 90, 90, 0⟩, (1/10 : ℚ)) ∉
      ((Comparator.mk (1/20) 0).compare
        [⟨"binance", "S", 100, 100, 100, 0⟩,
         ⟨"bybit", "S", 80, 80, 80, 0⟩,
         ⟨"okx", "S", 90, 90, 90, 0⟩]).2 := by
  refine ⟨compare_eval_ex2, ?_, by norm_num, ?_⟩
  · norm_num [pairDiff, round5, rustRound]
  · rw [compare_eval_ex2]
    simp

/-- C2 (amended): `Comparator::compare` emits, in enumeration order,
exactly those enumerated distinct-venue pairs whose diff is at least the
threshold **and** strictly above the running `biggest_diff` watermark,
raising the watermark to each emitted diff — i.e. it equals the reference
fold `emitFold` of `emitStep` over the enumerated pairs `enumPairs`; the
watermark does suppress qualifying pairs. -/
theorem C2_emissions_characterisation :
    ∀ (c : Comparator) (snaps : List MarketSnapshot),
      c.compare snaps = emitFold c (enumPairs snaps) :=
  fun c snaps => compare_eq_emitFold snaps c

/-- C10 (confirmed): the `biggest_diff` watermark never decreases across
`compare` calls, and over any update trace of a `MarketTracker` — whose
single `Comparator` is shared by all instruments — the emitted diffs are
strictly increasing over the whole lifetime and each exceeds the initial
watermark, so a large diff on one instrument raises the bar for every
other instrument until the process restarts. -/
theorem C10_watermark_global_monotone :
    (∀ (c : Comparator) (snaps : List MarketSnapshot),
       c.biggest_diff ≤ (c.compare snaps).1.biggest_diff) ∧
    (∀ (t : MarketTracker) (es : List TrackerEvent),
       t.comparator.biggest_diff ≤
         (runTracker t es).1.comparator.biggest_diff ∧
       List.Pairwise (fun s u => diffOf s < diffOf u) (runTracker t es).2 ∧
       ∀ x ∈ (runTracker t es).2, t.comparator.biggest_diff < diffOf x) :=
  ⟨fun c snaps => compare_biggest_mono c snaps,
   fun t es =>
     ⟨(runTracker_spec es t).2.1,
      (runTracker_spec es t).2.2.2,
      fun x hx => ((runTracker_spec es t).2.2.1 x hx).2.1⟩⟩

/-- C10 witness: over the concrete two-event trace the emitted triple's
diff strictly exceeds the tracker's initial watermark. -/
theorem C10_watermark_global_monotone_witness :
    ((⟨"binance", "BTCUSDT", 100, 100, 100, 0⟩ : MarketSnapshot),
     (⟨"bybit", "BTCUSDT", 80, 80, 80, 0⟩ : MarketSnapshot), (1/5 : ℚ)) ∈
      (runTracker (MarketTracker.new (1/20))
        [⟨"binance", "BTCUSDT", 100, 100, MarketType.Spot, 0⟩,
         ⟨"bybit", "BTCUSDT", 80, 80, MarketType.Spot, 0⟩]).2 ∧
    (MarketTracker.new (1/20)).comparator.biggest_diff <
      diffOf (⟨"binance", "BTCUSDT", 100, 100, 100, 0⟩,
              ⟨"bybit", "BTCUSDT", 80, 80, 80, 0⟩, (1/5 : ℚ)) :=
  ⟨runTracker_eval_ex_mem,
   (C10_watermark_global_monotone.2 (MarketTracker.new (1/20))
      [⟨"binance", "BTCUSDT", 100, 100, MarketType.Spot, 0⟩,
       ⟨"bybit", "BTCUSDT", 80, 80, MarketType.Spot, 0⟩]).2.2 _
     runTracker_eval_ex_mem⟩

/-- C3 (counterexample): `MarketTracker::update` with `bid = 0` stores the
snapshot (no validation), and a depth frame whose best bid string is `"0"`
still produces a tracker update storing `bid = 0.0` — only an *absent*
best bid/ask (empty `b` or `a` array) is discarded. -/
theorem C3_counterexample :
    ((MarketTracker.new 100).update "binance" "BTCUSDT" 0 1
        MarketType.Spot 0).1.data "BTCUSDT" =
      [⟨"binance", "BTCUSDT", 0, 1, 1/2, 0⟩] ∧
    ¬((0 : ℚ) > 0) ∧
    (binanceDepthFrameUpdate (MarketTracker.new 100) "BTCUSDT"
        [["0", "7"]] [["2", "9"]] MarketType.Spot 0).1.data "BTCUSDT" =
      [⟨"binance", "BTCUSDT", 0, 2, 1, 0⟩] := by
  have hb : parsePrice "0" = 0 := by decide
  have ha : parsePrice "2" = 2 := by decide
  refine ⟨?_, by norm_num, ?_⟩
  · rw [update_data_eq]
    simp [MarketTracker.new, MarketSnapshot.new]
  · show ((MarketTracker.new 100).update exchange_names.BINANCE "BTCUSDT"
        (parsePrice "0") (parsePrice "2") MarketType.Spot 0).1.data "BTCUSDT" = _
    rw [hb, ha, update_data_eq]
    simp [MarketTracker.new, MarketSnapshot.new, exchange_names.BINANCE]

/-- C3 (amended): `MarketTracker::update` stores every snapshot
unconditionally — it performs no bid/ask validation, so non-positive
prices are accepted; the Binance stream handler updates the tracker
whenever both best-bid and best-ask arrays are nonempty, forwarding a
price that fails to parse (or parses to 0) as `0.0`; only a frame with an
empty `b` or `a` array produces no tracker update. -/
theorem C3_no_validation :
    (∀ (t : MarketTracker) (ex sym : String) (bid ask : ℚ)
       (mt : MarketType) (now : ℤ),
       (t.update ex sym bid ask mt now).1.data sym =
         t.data sym ++ [MarketSnapshot.new ex sym bid ask mt now]) ∧
    (∀ (t : MarketTracker) (sym b0 a0 : String) (br ar : List String)
       (bs aas : List (List String)) (mt : MarketType) (now : ℤ),
       binanceDepthFrameUpdate t sym ((b0 :: br) :: bs) ((a0 :: ar) :: aas)
           mt now =
         t.update exchange_names.BINANCE sym (parsePrice b0) (parsePrice a0)
           mt now) ∧
    (∀ (t : MarketTracker) (sym : String) (asks : List (List String))
       (mt : MarketType) (now : ℤ),
       binanceDepthFrameUpdate t sym [] asks mt now = (t, [])) ∧
    (∀ (t : MarketTracker) (sym : String) (bids : List (List String))
       (mt : MarketType) (now : ℤ),
       binanceDepthFrameUpdate t sym bids [] mt now = (t, [])) := by
  refine ⟨?_, ?_, ?_, ?_⟩
  · intro t ex sym bid ask mt now
    rw [update_data_eq]
    simp
  · intro t sym b0 a0 br ar bs aas mt now
    rfl
  · intro t sym asks mt now
    rfl
  · intro t sym bids mt now
    cases bids with
    | nil => rfl
    | cons b bs => rfl

/-- C4 (counterexample): after two updates for the same `(instrument,
venue)` pair the per-instrument table holds *both* snapshots — the first
is retained, nothing is overwritten, so the table does not hold at most
one snapshot per venue. -/
theorem C4_counterexample :
    (((MarketTracker.new 100).update "binance" "BTCUSDT" 100 101
          MarketType.Spot 0).1.update "binance" "BTCUSDT" 102 103
        MarketType.Spot 1).1.data "BTCUSDT" =
      [⟨"binance", "BTCUSDT", 100, 101, 201/2, 0⟩,
       ⟨"binance", "BTCUSDT", 102, 103, 205/2, 1⟩] := by
  rw [update_data_eq]
  simp only [if_pos rfl]
  rw [update_data_eq]
  simp [MarketTracker.new, MarketSnapshot.new]
  norm_num

/-- C4 (amended): `MarketTracker::update` *appends* the new snapshot to
the per-instrument vector (`data.entry(symbol).or_default().push(..)`):
the vector grows by exactly one on every call, every previously stored
snapshot — including earlier ones from the same venue — is retained, and
other instruments' vectors are untouched; no overwrite occurs and full
history accumulates in the tracker. -/
theorem C4_append_keeps_history :
    ∀ (t : MarketTracker) (ex sym : String) (bid ask : ℚ)
      (mt : MarketType) (now : ℤ) (s : String),
      (t.update ex sym bid ask mt now).1.data s =
        (if s = sym
         then t.data sym ++ [MarketSnapshot.new ex sym bid ask mt now]
         else t.data s) ∧
      ((t.update ex sym bid ask mt now).1.data sym).length =
        (t.data sym).length + 1 := by
  intro t ex sym bid ask mt now s
  refine ⟨update_data_eq t ex sym bid ask mt now s, ?_⟩
  rw [update_data_eq]
  simp

/-! ## Lemmas: alert gate -/

theorem trySend_snd_indep {α : Type} (m : Mailbox α) (x y : α) :
    (m.trySend x).2 = (m.trySend y).2 := by
  unfold Mailbox.trySend
  by_cases hcl : m.closed
  · simp [hcl]
  · by_cases hcap : m.capacity ≤ m.queue.length <;> simp [hcl, hcap]

theorem maybe_send_spec (g : AlertGate) (mb : Mailbox AppAlert) (now : ℚ)
    (symbol ea eb : String) (ba aa ma bb ab mbv d : ℚ) :
    (g.maybe_send mb now symbol ea eb ba aa ma bb ab mbv d).gate =
      (if (g.maybe_send mb now symbol ea eb ba aa ma bb ab mbv d).accepted
          = true
       then { g with
                last_notified := fun k =>
                  if k = pair_key symbol ea eb then some d
                  else g.last_notified k
                last_send_time := some now }
       else g) ∧
    (g.maybe_send mb now symbol ea eb ba aa ma bb ab mbv d).mailbox =
      (if (g.maybe_send mb now symbol ea eb ba aa ma bb ab mbv d).accepted
          = true
       then { mb with
                queue := mb.queue ++ [⟨symbol, ea, eb, ba, aa, ma, bb, ab, mbv, d⟩] }
       else mb) ∧
    ((g.maybe_send mb now symbol ea eb ba aa ma bb ab mbv d).accepted = true ↔
      (g.min_diff ≤ d ∧
       reAlertBlocked g (pair_key symbol ea eb) d = false ∧
       cooldownBlocked g now = false ∧
       (mb.trySend ⟨symbol, ea, eb, ba, aa, ma, bb, ab, mbv, d⟩).2 =
         TrySendResult.ok)) := by
  by_cases h1 : d < g.min_diff
  · simp [AlertGate.maybe_send, h1, not_le.mpr h1]
  · by_cases h2 : reAlertBlocked g (pair_key symbol ea eb) d = true
    · simp [AlertGate.maybe_send, h1, h2]
    · by_cases h3 : cooldownBlocked g now = true
      · simp [AlertGate.maybe_send, h1, h2, h3]
      · by_cases hcl : mb.closed
        · simp [AlertGate.maybe_send, Mailbox.trySend, h1, h2, h3, hcl]
        · by_cases hcap : mb.capacity ≤ mb.queue.length
          · simp [AlertGate.maybe_send, Mailbox.trySend, h1, h2, h3, hcl, hcap]
          · simp [AlertGate.maybe_send, Mailbox.trySend, h1, h2, h3, hcl,
              hcap, not_lt.mp h1]

theorem pair_key_swap (s a b : String) : pair_key s a b = pair_key s b a := by
  unfold pair_key
  rcases le_total a b with h | h
  · by_cases h2 : b ≤ a
    · have hab : a = b := le_antisymm h h2
      subst hab; rfl
    · simp [h, h2]
  · by_cases h2 : a ≤ b
    · have hab : a = b := le_antisymm h2 h
      subst hab; rfl
    · simp [h, h2]

theorem pair_key_min_max (s a b : String) :
    pair_key s a b = toUpperStr s ++ "|" ++ min a b ++ "|" ++ max a b := by
  unfold pair_key
  rcases le_or_lt a b with h | h
  · simp [h, min_eq_left h, max_eq_right h]
  · have h' : ¬ a ≤ b := not_le.mpr h
    simp [h', min_eq_right (le_of_lt h), max_eq_left (le_of_lt h)]

/-- C6 (confirmed): in `AlertGate::maybe_send`, gate state (`last_notified`
and `last_send_time`) and the mailbox are updated exactly when the
non-blocking enqueue succeeds; the call is accepted iff all three guards
pass *and* `try_send` returns `Ok` — so when the guards pass but the
mailbox is full or closed, the alert is dropped and the gate state is left
entirely unchanged. -/
theorem C6_state_update_iff_enqueue (g : AlertGate) (mb : Mailbox AppAlert)
    (now : ℚ) (symbol ea eb : String) (ba aa ma bb ab mbv d : ℚ) :
    (g.maybe_send mb now symbol ea eb ba aa ma bb ab mbv d).gate =
      (if (g.maybe_send mb now symbol ea eb ba aa ma bb ab mbv d).accepted
          = true
       then { g with
                last_notified := fun k =>
                  if k = pair_key symbol ea eb then some d
                  else g.last_notified k
                last_send_time := some now }
       else g) ∧
    (g.maybe_send mb now symbol ea eb ba aa ma bb ab mbv d).mailbox =
      (if (g.maybe_send mb now symbol ea eb ba aa ma bb ab mbv d).accepted
          = true
       then { mb with
                queue := mb.queue ++ [⟨symbol, ea, eb, ba, aa, ma, bb, ab, mbv, d⟩] }
       else mb) ∧
    ((g.maybe_send mb now symbol ea eb ba aa ma bb ab mbv d).accepted = true ↔
      (g.min_diff ≤ d ∧
       reAlertBlocked g (pair_key symbol ea eb) d = false ∧
       cooldownBlocked g now = false ∧
       (mb.trySend ⟨symbol, ea, eb, ba, aa, ma, bb, ab, mbv, d⟩).2 =
         TrySendResult.ok)) :=
  maybe_send_spec g mb now symbol ea eb ba aa ma bb ab mbv d

/-- C8 (confirmed): the pair key normalises to
`UPPER(symbol) | min(venue_a, venue_b) | max(venue_a, venue_b)`, and
`maybe_send`'s accept/reject decision and resulting gate state are
identical under swapping the two venues of the same alert (together with
their per-venue prices); only the enqueued `AppAlert` payload records the
original order. -/
theorem C8_swap_invariant (g : AlertGate) (mb : Mailbox AppAlert) (now : ℚ)
    (symbol ea eb : String) (ba aa ma bb ab mbv d : ℚ) :
    pair_key symbol ea eb =
      toUpperStr symbol ++ "|" ++ min ea eb ++ "|" ++ max ea eb ∧
    (g.maybe_send mb now symbol ea eb ba aa ma bb ab mbv d).accepted =
      (g.maybe_send mb now symbol eb ea bb ab mbv ba aa ma d).accepted ∧
    (g.maybe_send mb now symbol ea eb ba aa ma bb ab mbv d).gate =
      (g.maybe_send mb now symbol eb ea bb ab mbv ba aa ma d).gate := by
  obtain ⟨hg1, hm1, ha1⟩ := maybe_send_spec g mb now symbol ea eb ba aa ma bb ab mbv d
  obtain ⟨hg2, hm2, ha2⟩ := maybe_send_spec g mb now symbol eb ea bb ab mbv ba aa ma d
  have hkey : pair_key symbol ea eb = pair_key symbol eb ea :=
    pair_key_swap symbol ea eb
  have hts : (mb.trySend ⟨symbol, ea, eb, ba, aa, ma, bb, ab, mbv, d⟩).2 =
      (mb.trySend ⟨symbol, eb, ea, bb, ab, mbv, ba, aa, ma, d⟩).2 :=
    trySend_snd_indep mb _ _
  have hiff :
      ((g.maybe_send mb now symbol ea eb ba aa ma bb ab mbv d).accepted = true)
        ↔
      ((g.maybe_send mb now symbol eb ea bb ab mbv ba aa ma d).accepted = true) := by
    rw [ha1, ha2, hkey, hts]
  have hacc :
      (g.maybe_send mb now symbol ea eb ba aa ma bb ab mbv d).accepted =
      (g.maybe_send mb now symbol eb ea bb ab mbv ba aa ma d).accepted := by
    cases h1 : (g.maybe_send mb now symbol ea eb ba aa ma bb ab mbv d).accepted
      <;> cases h2 : (g.maybe_send mb now symbol eb ea bb ab mbv ba aa ma d).accepted
      <;> simp_all
  refine ⟨pair_key_min_max symbol ea eb, hacc, ?_⟩
  rw [hg1, hg2, hacc, hkey]

theorem reAlert_false_le {g : AlertGate} {key : String} {d prev : ℚ}
    (h : reAlertBlocked g key d = false)
    (hprev : g.last_notified key = some prev) :
    prev + g.re_alert_delta ≤ d := by
  unfold reAlertBlocked at h
  rw [hprev] at h
  simpa [not_lt] using h

theorem stepGate_config (g : AlertGate) (e : GateEvent) :
    (stepGate g e).1.min_diff = g.min_diff ∧
    (stepGate g e).1.re_alert_delta = g.re_alert_delta ∧
    (stepGate g e).1.cooldown = g.cooldown := by
  cases e with
  | reset => exact ⟨rfl, rfl, rfl⟩
  | send ev =>
    obtain ⟨hg, _, _⟩ := maybe_send_spec g ev.mailbox ev.now ev.symbol
      ev.exchange_a ev.exchange_b ev.bid_a ev.ask_a ev.mid_a ev.bid_b
      ev.ask_b ev.mid_b ev.diff_percent
    simp only [stepGate]
    rw [hg]
    split <;> exact ⟨rfl, rfl, rfl⟩

theorem runGate_config (es : List GateEvent) :
    ∀ g : AlertGate,
      (runGate g es).min_diff = g.min_diff ∧
      (runGate g es).re_alert_delta = g.re_alert_delta ∧
      (runGate g es).cooldown = g.cooldown := by
  induction es with
  | nil => intro g; exact ⟨rfl, rfl, rfl⟩
  | cons e es ih =>
    intro g
    obtain ⟨h1, h2, h3⟩ := ih (stepGate g e).1
    obtain ⟨s1, s2, s3⟩ := stepGate_config g e
    exact ⟨h1.trans s1, h2.trans s2, h3.trans s3⟩

theorem stepGate_send_accept {g : AlertGate} {ev : SendEvent} {K : String}
    {v : ℚ} (h : (stepGate g (GateEvent.send ev)).2 = some (K, v)) :
    (stepGate g (GateEvent.send ev)).1.last_notified K = some v ∧
    reAlertBlocked g K v = false := by
  by_cases hacc : (g.maybe_send ev.mailbox ev.now ev.symbol ev.exchange_a
      ev.exchange_b ev.bid_a ev.ask_a ev.mid_a ev.bid_b ev.ask_b ev.mid_b
      ev.diff_percent).accepted = true
  · have h' : (if (g.maybe_send ev.mailbox ev.now ev.symbol ev.exchange_a
        ev.exchange_b ev.bid_a ev.ask_a ev.mid_a ev.bid_b ev.ask_b ev.mid_b
        ev.diff_percent).accepted = true
        then some (pair_key ev.symbol ev.exchange_a ev.exchange_b,
          ev.diff_percent)
        else none) = some (K, v) := h
    rw [if_pos hacc] at h'
    have hK : pair_key ev.symbol ev.exchange_a ev.exchange_b = K :=
      (Prod.mk.injEq _ _ _ _ ▸ Option.some.injEq _ _ ▸ h') |>.1
    have hv : ev.diff_percent = v :=
      (Prod.mk.injEq _ _ _ _ ▸ Option.some.injEq _ _ ▸ h') |>.2
    obtain ⟨hg, _, ha⟩ := maybe_send_spec g ev.mailbox ev.now ev.symbol
      ev.exchange_a ev.exchange_b ev.bid_a ev.ask_a ev.mid_a ev.bid_b
      ev.ask_b ev.mid_b ev.diff_percent
    obtain ⟨_, hra, _, _⟩ := ha.mp hacc
    constructor
    · show (g.maybe_send ev.mailbox ev.now ev.symbol ev.exchange_a
        ev.exchange_b ev.bid_a ev.ask_a ev.mid_a ev.bid_b ev.ask_b ev.mid_b
        ev.diff_percent).gate.last_notified K = some v
      rw [hg, if_pos hacc]
      simp only []
      rw [← hK, ← hv]
      simp
    · rw [← hK, ← hv]
      exact hra
  · have h' : (if (g.maybe_send ev.mailbox ev.now ev.symbol ev.exchange_a
        ev.exchange_b ev.bid_a ev.ask_a ev.mid_a ev.bid_b ev.ask_b ev.mid_b
        ev.diff_percent).accepted = true
        then some (pair_key ev.symbol ev.exchange_a ev.exchange_b,
          ev.diff_percent)
        else none) = some (K, v) := h
    rw [if_neg hacc] at h'
    exact absurd h' (by simp)

theorem stepGate_notified_mono (g : AlertGate) (e : GateEvent)
    (he : e ≠ GateEvent.reset) (K : String) (w : ℚ)
    (hd : 0 ≤ g.re_alert_delta) (hK : g.last_notified K = some w) :
    ∃ w', (stepGate g e).1.last_notified K = some w' ∧ w ≤ w' := by
  cases e with
  | reset => exact absurd rfl he
  | send ev =>
    obtain ⟨hg, _, ha⟩ := maybe_send_spec g ev.mailbox ev.now ev.symbol
      ev.exchange_a ev.exchange_b ev.bid_a ev.ask_a ev.mid_a ev.bid_b
      ev.ask_b ev.mid_b ev.diff_percent
    have hstep : (stepGate g (GateEvent.send ev)).1 =
        (g.maybe_send ev.mailbox ev.now ev.symbol ev.exchange_a ev.exchange_b
          ev.bid_a ev.ask_a ev.mid_a ev.bid_b ev.ask_b ev.mid_b
          ev.diff_percent).gate := rfl
    by_cases hacc : (g.maybe_send ev.mailbox ev.now ev.symbol ev.exchange_a
        ev.exchange_b ev.bid_a ev.ask_a ev.mid_a ev.bid_b ev.ask_b ev.mid_b
        ev.diff_percent).accepted = true
    · rw [hstep, hg, if_pos hacc]
      by_cases hkey : K = pair_key ev.symbol ev.exchange_a ev.exchange_b
      · refine ⟨ev.diff_percent, by simp [hkey], ?_⟩
        obtain ⟨_, hra, _, _⟩ := ha.mp hacc
        have hle := reAlert_false_le hra (hkey ▸ hK)
        linarith
      · exact ⟨w, by simp [hkey, hK], le_refl w⟩
    · rw [hstep, hg, if_neg hacc]
      exact ⟨w, hK, le_refl w⟩

theorem runGate_notified_mono (es : List GateEvent) :
    ∀ (g : AlertGate) (K : String) (w : ℚ),
      GateEvent.reset ∉ es → 0 ≤ g.re_alert_delta →
      g.last_notified K = some w →
      ∃ w', (runGate g es).last_notified K = some w' ∧ w ≤ w' := by
  induction es with
  | nil => intro g K w _ _ hK; exact ⟨w, hK, le_refl w⟩
  | cons e es ih =>
    intro g K w hres hd hK
    have he : e ≠ GateEvent.reset := by
      intro h
      exact hres (h ▸ List.mem_cons_self e es)
    obtain ⟨w1, hw1, hle1⟩ := stepGate_notified_mono g e he K w hd hK
    have hd' : 0 ≤ (stepGate g e).1.re_alert_delta := by
      rw [(stepGate_config g e).2.1]; exact hd
    have hres' : GateEvent.reset ∉ es := fun h =>
      hres (List.mem_cons_of_mem e h)
    obtain ⟨w', hw', hle2⟩ := ih (stepGate g e).1 K w1 hres' hd' hw1
    exact ⟨w', hw', le_trans hle1 hle2⟩

/-- C7 (confirmed): `reset` wipes `last_notified` and `last_send_time`;
and once an alert for pair key `K` is accepted with value `v`, every later
accepted alert for the same key `K` — with no intervening `reset` and the
configured `re_alert_delta` nonnegative, as it always is in this system —
has value at least `v + re_alert_delta`: values below that bar are
rejected by guard 2 until `reset()` runs. -/
theorem C7_gate_monotone_until_reset :
    (∀ g : AlertGate,
       (AlertGate.reset g).last_notified = (fun _ => none) ∧
       (AlertGate.reset g).last_send_time = none) ∧
    (∀ (g0 : AlertGate) (pre mid : List GateEvent) (e1 e2 : SendEvent)
       (K : String) (v v' : ℚ),
       0 ≤ g0.re_alert_delta →
       (stepGate (runGate g0 pre) (GateEvent.send e1)).2 = some (K, v) →
       GateEvent.reset ∉ mid →
       (stepGate (runGate (stepGate (runGate g0 pre) (GateEvent.send e1)).1
           mid) (GateEvent.send e2)).2 = some (K, v') →
       v + g0.re_alert_delta ≤ v') := by
  constructor
  · intro g; exact ⟨rfl, rfl⟩
  · intro g0 pre mid e1 e2 K v v' hd h1 hmid h2
    obtain ⟨hn1, _⟩ := stepGate_send_accept h1
    have hd1 : 0 ≤ (stepGate (runGate g0 pre) (GateEvent.send e1)).1.re_alert_delta := by
      rw [(stepGate_config _ _).2.1, (runGate_config pre g0).2.1]
      exact hd
    obtain ⟨w, hw, hvw⟩ := runGate_notified_mono mid
      (stepGate (runGate g0 pre) (GateEvent.send e1)).1 K v hmid hd1 hn1
    obtain ⟨_, hra2⟩ := stepGate_send_accept h2
    have hle := reAlert_false_le hra2 hw
    have hdeq : (runGate (stepGate (runGate g0 pre) (GateEvent.send e1)).1
        mid).re_alert_delta = g0.re_alert_delta := by
      rw [(runGate_config mid _).2.1, (stepGate_config _ _).2.1,
        (runGate_config pre g0).2.1]
    rw [hdeq] at hle
    linarith

theorem gateWitness_e1 :
    (stepGate (runGate (AlertGate.new 5 1 120) [])
        (GateEvent.send ⟨⟨[], 1, false⟩, 0, "btc", "binance", "bybit",
          1, 2, 3, 4, 5, 6, 5⟩)).2 =
      some (pair_key "btc" "binance" "bybit", 5) := by
  simp only [runGate, stepGate, AlertGate.maybe_send, AlertGate.new,
    reAlertBlocked, cooldownBlocked, Mailbox.trySend]
  norm_num

theorem gateWitness_e2 :
    (stepGate (runGate (stepGate (runGate (AlertGate.new 5 1 120) [])
          (GateEvent.send ⟨⟨[], 1, false⟩, 0, "btc", "binance", "bybit",
            1, 2, 3, 4, 5, 6, 5⟩)).1 [])
        (GateEvent.send ⟨⟨[], 1, false⟩, 200, "btc", "binance", "bybit",
          1, 2, 3, 4, 5, 6, 7⟩)).2 =
      some (pair_key "btc" "binance" "bybit", 7) := by
  simp only [runGate, stepGate, AlertGate.maybe_send, AlertGate.new,
    reAlertBlocked, cooldownBlocked, Mailbox.trySend]
  norm_num

/-- C7 witness: the monotonicity theorem applied to a concrete trace — an
accepted alert at diff 5 followed, after a cooldown-clearing interval and
no reset, by an accepted alert at diff 7 for the same key, with
`re_alert_delta = 1`: indeed `5 + 1 ≤ 7`. -/
theorem C7_gate_monotone_until_reset_witness :
    (0 : ℚ) ≤ (AlertGate.new 5 1 120).re_alert_delta ∧
    (5 : ℚ) + (AlertGate.new 5 1 120).re_alert_delta ≤ 7 :=
  ⟨by norm_num [AlertGate.new],
   C7_gate_monotone_until_reset.2 (AlertGate.new 5 1 120) [] []
     ⟨⟨[], 1, false⟩, 0, "btc", "binance", "bybit", 1, 2, 3, 4, 5, 6, 5⟩
     ⟨⟨[], 1, false⟩, 200, "btc", "binance", "bybit", 1, 2, 3, 4, 5, 6, 7⟩
     (pair_key "btc" "binance" "bybit") 5 7
     (by norm_num [AlertGate.new]) gateWitness_e1 (by simp)
     gateWitness_e2⟩

/-! ## Lemmas: reconnect backoff -/

theorem backoffIter_shift (b : ℕ) :
    ∀ n : ℕ, backoffIter (min (b * 2) MAX_BACKOFF_MS) n = backoffIter b (n + 1) := by
  intro n
  induction n with
  | zero => rfl
  | succ n ih => simp only [backoffIter, ih]

theorem failRun_getD (jitters : List ℕ) :
    ∀ (b n : ℕ), n < jitters.length →
      (failRun b jitters).1.getD n 0 = backoffIter b n + jitters.getD n 0 := by
  induction jitters with
  | nil => intro b n hn; simp at hn
  | cons j js ih =>
    intro b n hn
    cases n with
    | zero => rfl
    | succ n =>
      have hn' : n < js.length := by simpa using hn
      have heq : (failRun b (j :: js)).1 =
          (b + j) :: (failRun (min (b * 2) MAX_BACKOFF_MS) js).1 := rfl
      rw [heq]
      simp only [List.getD_cons_succ]
      rw [ih (min (b * 2) MAX_BACKOFF_MS) n hn', backoffIter_shift]

theorem backoffIter_base (n : ℕ) :
    backoffIter BASE_BACKOFF_MS n = min (1000 * 2 ^ n) 60000 := by
  induction n with
  | zero => rfl
  | succ n ih =>
    show min (backoffIter BASE_BACKOFF_MS n * 2) MAX_BACKOFF_MS = _
    rw [ih, pow_succ]
    show min (min (1000 * 2 ^ n) 60000 * 2) 60000 = min (1000 * (2 ^ n * 2)) 60000
    rcases le_total (1000 * 2 ^ n) 60000 with h | h
    · rw [min_eq_left h]
      omega
    · rw [min_eq_right h]
      omega

/-- C9 (counterexample): starting from the initial backoff state (process
start), a single failed connection attempt with jitter 0 is followed by a
wait of `1000` ms, not `min(1000·2^1, 60000) = 2000` ms as claimed: the
sleep uses the *current* backoff and only then doubles it, so after N
consecutive failures from the base state the wait is `base·2^(N−1)`
(capped), not `base·2^N`. -/
theorem C9_counterexample :
    (failRun BASE_BACKOFF_MS [0]).1.getD 0 0 = 1000 ∧
    (1000 : ℕ) ≠ min (1000 * 2 ^ 1) 60000 + 0 := by
  refine ⟨rfl, by norm_num⟩

/-- C9 (amended): in an all-failure run from the initial backoff state,
the wait following the `(n+1)`-th consecutive failed attempt is
`min(1000·2^n, 60000) + jitter_n` — equivalently, after `N ≥ 1`
consecutive failures the next wait is `min(1000·2^(N−1), 60000) + jitter`
with jitter drawn from `[0, 500)` — and the wait is therefore below
`min(1000·2^n, 60000) + 500`; on any successful connect the backoff is
reset to the 1000 ms base before the post-stream sleep, after which it
doubles. -/
theorem C9_backoff_off_by_one (jitters : List ℕ) (n : ℕ)
    (hn : n < jitters.length) (hj : jitters.getD n 0 < 500) :
    (failRun BASE_BACKOFF_MS jitters).1.getD n 0 =
      min (1000 * 2 ^ n) 60000 + jitters.getD n 0 ∧
    (failRun BASE_BACKOFF_MS jitters).1.getD n 0 <
      min (1000 * 2 ^ n) 60000 + 500 ∧
    ∀ (b j : ℕ), loopIter b true j =
      (BASE_BACKOFF_MS + j, min (BASE_BACKOFF_MS * 2) MAX_BACKOFF_MS) := by
  have h := failRun_getD jitters BASE_BACKOFF_MS n hn
  rw [backoffIter_base] at h
  refine ⟨h, ?_, fun b j => rfl⟩
  omega

/-- C9 witness: two consecutive failures with jitters 7 and 13 — the wait
after the second failure is `2013 = min(1000·2^1, 60000) + 13`. -/
theorem C9_backoff_off_by_one_witness :
    1 < ([7, 13] : List ℕ).length ∧ ([7, 13] : List ℕ).getD 1 0 < 500 ∧
    (failRun BASE_BACKOFF_MS [7, 13]).1.getD 1 0 =
      min (1000 * 2 ^ 1) 60000 + ([7, 13] : List ℕ).getD 1 0 :=
  ⟨by norm_num, by norm_num,
   (C9_backoff_off_by_one [7, 13] 1 (by norm_num) (by norm_num)).1⟩

/-! ## Lemmas: parameter signing -/

theorem btreeInsert_keys (k v : String) :
    ∀ (m : List (String × String)) (x : String),
      x ∈ (btreeInsert k v m).map Prod.fst → x = k ∨ x ∈ m.map Prod.fst := by
  intro m
  induction m with
  | nil =>
    intro x hx
    simp [btreeInsert] at hx
    exact Or.inl hx
  | cons p rest ih =>
    intro x hx
    rcases p with ⟨k', v'⟩
    by_cases h1 : k < k'
    · simp only [btreeInsert, if_pos h1, List.map_cons, List.mem_cons] at hx
      rcases hx with h | h | h
      · exact Or.inl h
      · exact Or.inr (by simp [h])
      · exact Or.inr (by simp [h])
    · by_cases h2 : k = k'
      · simp only [btreeInsert, if_neg h1, if_pos h2, List.map_cons,
          List.mem_cons] at hx
        rcases hx with h | h
        · exact Or.inl h
        · exact Or.inr (by simp [h])
      · simp only [btreeInsert, if_neg h1, if_neg h2, List.map_cons,
          List.mem_cons] at hx
        rcases hx with h | h
        · exact Or.inr (by simp [h])
        · rcases ih x h with h' | h'
          · exact Or.inl h'
          · exact Or.inr (by simp [h'])

theorem btreeInsert_sorted (k v : String) :
    ∀ m : List (String × String),
      List.Sorted (· < ·) (m.map Prod.fst) →
      List.Sorted (· < ·) ((btreeInsert k v m).map Prod.fst) := by
  intro m
  induction m with
  | nil => intro _; simp [btreeInsert]
  | cons p rest ih =>
    rcases p with ⟨k', v'⟩
    intro hs
    rw [List.map_cons, List.sorted_cons] at hs
    obtain ⟨hall, hrest⟩ := hs
    by_cases h1 : k < k'
    · simp only [btreeInsert, if_pos h1, List.map_cons]
      rw [List.sorted_cons]
      constructor
      · intro b hb
        rcases List.mem_cons.mp hb with rfl | hb'
        · exact h1
        · exact lt_trans h1 (hall b hb')
      · rw [List.sorted_cons]
        exact ⟨hall, hrest⟩
    · by_cases h2 : k = k'
      · subst h2
        simp only [btreeInsert, if_neg h1, eq_self_iff_true, if_true,
          List.map_cons]
        rw [List.sorted_cons]
        exact ⟨hall, hrest⟩
      · have h3 : k' < k := lt_of_le_of_ne (le_of_not_lt h1) (Ne.symm h2)
        simp only [btreeInsert, if_neg h1, if_neg h2, List.map_cons]
        rw [List.sorted_cons]
        constructor
        · intro b hb
          rcases btreeInsert_keys k v rest b hb with rfl | hb'
          · exact h3
          · exact hall b hb'
        · exact ih hrest

theorem alookup_btreeInsert_self (k v : String) :
    ∀ m : List (String × String), alookup k (btreeInsert k v m) = some v := by
  intro m
  induction m with
  | nil => simp [btreeInsert, alookup]
  | cons p rest ih =>
    rcases p with ⟨k', v'⟩
    by_cases h1 : k < k'
    · simp [btreeInsert, alookup, h1]
    · by_cases h2 : k = k'
      · simp [btreeInsert, alookup, h1, h2]
      · simp [btreeInsert, alookup, h1, h2, ih]

theorem alookup_btreeInsert_ne (k v q : String) (hq : q ≠ k) :
    ∀ m : List (String × String),
      alookup q (btreeInsert k v m) = alookup q m := by
  intro m
  induction m with
  | nil => simp [btreeInsert, alookup, hq]
  | cons p rest ih =>
    rcases p with ⟨k', v'⟩
    by_cases h1 : k < k'
    · simp [btreeInsert, alookup, h1, hq]
    · by_cases h2 : k = k'
      · subst h2
        simp [btreeInsert, alookup, h1, hq]
      · by_cases h3 : q = k'
        · simp [btreeInsert, alookup, h1, h2, h3]
        · simp [btreeInsert, alookup, h1, h2, h3, ih]

theorem wordBytes_lt (w : ℕ) : ∀ b ∈ wordBytes w, b < 256 := by
  intro b hb
  simp only [wordBytes, List.mem_cons, List.not_mem_nil, or_false] at hb
  rcases hb with rfl | rfl | rfl | rfl <;> exact Nat.mod_lt _ (by norm_num)

theorem sha256_length (msg : List ℕ) : (sha256 msg).length = 32 := by
  simp [sha256, wordBytes]

theorem sha256_lt (msg : List ℕ) : ∀ b ∈ sha256 msg, b < 256 := by
  intro b hb
  simp only [sha256, List.mem_append] at hb
  rcases hb with ((((((h | h) | h) | h) | h) | h) | h) | h <;>
    exact wordBytes_lt _ b h

theorem hmacSha256_length (key msg : List ℕ) :
    (hmacSha256 key msg).length = 32 := by
  simp only [hmacSha256]
  exact sha256_length _

theorem hmacSha256_lt (key msg : List ℕ) :
    ∀ b ∈ hmacSha256 key msg, b < 256 := by
  simp only [hmacSha256]
  exact sha256_lt _

theorem hexDigitChar_mem : ∀ n < 16, hexDigitChar n ∈ hexAlphabet := by
  decide

theorem flatMap_hexByte_length (l : List ℕ) :
    (l.flatMap hexByte).length = 2 * l.length := by
  induction l with
  | nil => rfl
  | cons b bs ih =>
    simp only [List.flatMap_cons, hexByte, List.length_append, ih,
      List.length_cons, List.length_nil]
    omega

theorem hexEncode_length (bytes : List ℕ) :
    (hexEncode bytes).length = 2 * bytes.length := by
  show (String.mk (bytes.flatMap hexByte)).length = 2 * bytes.length
  show (bytes.flatMap hexByte).length = 2 * bytes.length
  exact flatMap_hexByte_length bytes

theorem hexEncode_mem (bytes : List ℕ) (hb : ∀ b ∈ bytes, b < 256) :
    ∀ c ∈ (hexEncode bytes).data, c ∈ hexAlphabet := by
  show ∀ c ∈ bytes.flatMap hexByte, c ∈ hexAlphabet
  intro c hc
  rw [List.mem_flatMap] at hc
  obtain ⟨b, hbm, hcb⟩ := hc
  have hlt := hb b hbm
  simp only [hexByte, List.mem_cons, List.not_mem_nil, or_false] at hcb
  rcases hcb with rfl | rfl
  · exact hexDigitChar_mem _ (by omega)
  · exact hexDigitChar_mem _ (by omega)

/-- C5 (confirmed): `augment_and_sign_params` injects `apiKey`, the
timestamp and `recvWindow = "5000"`, serialises all parameters as
`k1=v1&k2=v2&…` with keys in ascending lexicographic order and no
percent-encoding (the `BTreeMap` keeps the association list strictly
key-sorted), stores as `signature` the lowercase-hex HMAC-SHA-256 of that
canonical query under the secret, leaves every other caller parameter
untouched, and the signature always matches `^[0-9a-f]{64}$`.  Determinism
over `(params, apiKey, secret, timestamp, recvWindow)` is immediate: the
embedded function is a pure function of exactly those inputs (the clock
value is the explicit `timestamp` argument). -/
theorem C5_augment_and_sign (apiKey secret timestamp : String)
    (params : List (String × String))
    (hs : List.Sorted (· < ·) (params.map Prod.fst)) :
    alookup "apiKey"
        ((BinanceAuth.mk apiKey secret).augment_and_sign_params timestamp
          params) = some apiKey ∧
    alookup "timestamp"
        ((BinanceAuth.mk apiKey secret).augment_and_sign_params timestamp
          params) = some timestamp ∧
    alookup "recvWindow"
        ((BinanceAuth.mk apiKey secret).augment_and_sign_params timestamp
          params) = some "5000" ∧
    alookup "signature"
        ((BinanceAuth.mk apiKey secret).augment_and_sign_params timestamp
          params) =
      some (hexEncode (hmacSha256 (utf8Bytes secret)
        (utf8Bytes (canonicalQuery (btreeInsert "recvWindow" "5000"
          (btreeInsert "timestamp" timestamp
            (btreeInsert "apiKey" apiKey params))))))) ∧
    canonicalQuery (btreeInsert "recvWindow" "5000"
        (btreeInsert "timestamp" timestamp
          (btreeInsert "apiKey" apiKey params))) =
      String.intercalate "&"
        ((btreeInsert "recvWindow" "5000"
          (btreeInsert "timestamp" timestamp
            (btreeInsert "apiKey" apiKey params))).map
          (fun p => p.1 ++ "=" ++ p.2)) ∧
    List.Sorted (· < ·)
      ((btreeInsert "recvWindow" "5000"
        (btreeInsert "timestamp" timestamp
          (btreeInsert "apiKey" apiKey params))).map Prod.fst) ∧
    List.Sorted (· < ·)
      (((BinanceAuth.mk apiKey secret).augment_and_sign_params timestamp
        params).map Prod.fst) ∧
    (∀ q : String,
      ((BinanceAuth.mk apiKey secret).sign_payload q).length = 64 ∧
      ∀ c ∈ ((BinanceAuth.mk apiKey secret).sign_payload q).data,
        c ∈ hexAlphabet) ∧
    (∀ q : String,
      q ∉ (["apiKey", "timestamp", "recvWindow", "signature"] : List String) →
      alookup q ((BinanceAuth.mk apiKey secret).augment_and_sign_params
        timestamp params) = alookup q params) := by
  have hp3 : List.Sorted (· < ·)
      ((btreeInsert "recvWindow" "5000"
        (btreeInsert "timestamp" timestamp
          (btreeInsert "apiKey" apiKey params))).map Prod.fst) :=
    btreeInsert_sorted "recvWindow" "5000" _
      (btreeInsert_sorted "timestamp" timestamp _
        (btreeInsert_sorted "apiKey" apiKey _ hs))
  have haug : (BinanceAuth.mk apiKey secret).augment_and_sign_params
      timestamp params =
      btreeInsert "signature"
        (hexEncode (hmacSha256 (utf8Bytes secret)
          (utf8Bytes (canonicalQuery (btreeInsert "recvWindow" "5000"
            (btreeInsert "timestamp" timestamp
              (btreeInsert "apiKey" apiKey params)))))))
        (btreeInsert "recvWindow" "5000"
          (btreeInsert "timestamp" timestamp
            (btreeInsert "apiKey" apiKey params))) := rfl
  refine ⟨?_, ?_, ?_, ?_, rfl, hp3, ?_, ?_, ?_⟩
  · rw [haug, alookup_btreeInsert_ne _ _ _ (by decide),
      alookup_btreeInsert_ne _ _ _ (by decide),
      alookup_btreeInsert_ne _ _ _ (by decide),
      alookup_btreeInsert_self]
  · rw [haug, alookup_btreeInsert_ne _ _ _ (by decide),
      alookup_btreeInsert_ne _ _ _ (by decide),
      alookup_btreeInsert_self]
  · rw [haug, alookup_btreeInsert_ne _ _ _ (by decide),
      alookup_btreeInsert_self]
  · rw [haug, alookup_btreeInsert_self]
  · rw [haug]
    exact btreeInsert_sorted "signature" _ _ hp3
  · intro q
    constructor
    · show (hexEncode (hmacSha256 (utf8Bytes secret) (utf8Bytes q))).length = 64
      rw [hexEncode_length, hmacSha256_length]
    · show ∀ c ∈ (hexEncode (hmacSha256 (utf8Bytes secret)
        (utf8Bytes q))).data, c ∈ hexAlphabet
      exact hexEncode_mem _ (hmacSha256_lt _ _)
  · intro q hq
    have h1 : q ≠ "apiKey" := fun h => hq (by simp [h])
    have h2 : q ≠ "timestamp" := fun h => hq (by simp [h])
    have h3 : q ≠ "recvWindow" := fun h => hq (by simp [h])
    have h4 : q ≠ "signature" := fun h => hq (by simp [h])
    rw [haug, alookup_btreeInsert_ne _ _ _ h4, alookup_btreeInsert_ne _ _ _ h3,
      alookup_btreeInsert_ne _ _ _ h2, alookup_btreeInsert_ne _ _ _ h1]

theorem C5_witness_params_sorted :
    List.Sorted (· < ·)
      (([("price", "9.7"), ("quantity", "0.23"), ("side", "BUY"),
         ("symbol", "LTCUSDT"), ("timeInForce", "GTC"),
         ("type", "LIMIT")] : List (String × String)).map Prod.fst) := by
  simp only [List.map_cons, List.map_nil]
  rw [List.Sorted, ← List.chain'_iff_pairwise]
  simp only [List.chain'_cons, List.chain'_singleton, and_true,
    String.lt_iff_toList_lt]
  refine ⟨?_, ?_, ?_, ?_, ?_⟩ <;> decide

/-- C5 witness: the theorem applied to the spec's literal signing scenario
(`symbol=LTCUSDT, side=BUY, type=LIMIT, quantity=0.23, price=9.7,
timeInForce=GTC`, apiKey `K`, secret `S`, timestamp `1700000000000`). -/
theorem C5_augment_and_sign_witness :
    List.Sorted (· < ·)
      (([("price", "9.7"), ("quantity", "0.23"), ("side", "BUY"),
         ("symbol", "LTCUSDT"), ("timeInForce", "GTC"),
         ("type", "LIMIT")] : List (String × String)).map Prod.fst) ∧
    alookup "recvWindow"
        ((BinanceAuth.mk "K" "S").augment_and_sign_params "1700000000000"
          [("price", "9.7"), ("quantity", "0.23"), ("side", "BUY"),
           ("symbol", "LTCUSDT"), ("timeInForce", "GTC"),
           ("type", "LIMIT")]) = some "5000" :=
  ⟨C5_witness_params_sorted,
   (C5_augment_and_sign "K" "S" "1700000000000"
      [("price", "9.7"), ("quantity", "0.23"), ("side", "BUY"),
       ("symbol", "LTCUSDT"), ("timeInForce", "GTC"), ("type", "LIMIT")]
      C5_witness_params_sorted).2.2.1⟩
